import Mathlib

set_option maxHeartbeats 1000000
set_option maxRecDepth 4000

/-!
Verification development for the gitopus command-line tool.

Shallow embedding conventions:
* JS strings are modelled as lists of UTF-16 code units (`List Nat`);
  all inputs appearing in the claims are ASCII, where code units and
  code points coincide.
* Node `Buffer`s are lists of bytes (`List Nat`, each `< 256`).
* Effectful boundaries (the AI endpoint, `child_process.exec`, the
  random IV source, the environment) are passed in as explicit
  parameters or oracles.
-/

/-- Code units of a Lean string literal (used for ASCII constants). -/
def strCodes (s : String) : List Nat := s.toList.map Char.toNat

/-- JS regex `\d`: ASCII digits only. -/
def isDigitCode (c : Nat) : Bool := decide (48 ≤ c ∧ c ≤ 57)

/-- JS regex `\s` and the `String.prototype.trim` whitespace set:
space, tab, LF, VT, FF, CR, NBSP, and the Unicode space separators
(U+1680, U+2000..U+200A, U+2028, U+2029, U+202F, U+205F, U+3000, U+FEFF). -/
def isSpaceCode (c : Nat) : Bool :=
  decide (c = 32 ∨ (9 ≤ c ∧ c ≤ 13) ∨ c = 160 ∨ c = 5760 ∨
    (8192 ≤ c ∧ c ≤ 8202) ∨ c = 8232 ∨ c = 8233 ∨ c = 8239 ∨
    c = 8287 ∨ c = 12288 ∨ c = 65279)

/-- JS `String.prototype.trim`: strip the whitespace set from both ends. -/
def trimCodes (cs : List Nat) : List Nat :=
  ((cs.dropWhile isSpaceCode).reverse.dropWhile isSpaceCode).reverse

/-- Does `pat` occur at the start of `s`? (helper for `seqContains`). -/
def seqStartsWith : List Nat → List Nat → Bool
  | [], _ => true
  | _ :: _, [] => false
  | a :: pat, b :: s => a == b && seqStartsWith pat s

/-- JS `String.prototype.includes`: does `pat` occur contiguously in `s`? -/
def seqContains (pat : List Nat) : List Nat → Bool
  | [] => seqStartsWith pat []
  | c :: rest => seqStartsWith pat (c :: rest) || seqContains pat rest

/-!
 ## Message generator: `_parseMessages` (src/services/CommitGen.js)

```js
_parseMessages(text) {
    return text
        .split(/\d+\.\s+/)
        .slice(1)
        .map((msg) => msg.trim())
        .filter((msg) => msg.length > 0 && msg.length <= this.config.maxCommitLength);
}
```

`text.split(/\d+\.\s+/)` is embedded as a deterministic left-to-right
scanner.  The regex `\d+\.\s+` is deterministic without backtracking:
a match at a position is a maximal digit run, a literal `.`, then a
maximal whitespace run (a match attempt starting in the middle of a
digit run succeeds exactly when the attempt at the start of the run
does, since the dot/whitespace tests only look past the run's end).
The scanner below is that automaton, consuming one code unit per step:
* `norm`: inside a segment;
* `digits ds`: buffering a digit run `ds` (stored reversed);
* `dot ds`: the digit run was followed by `.`; the next code unit
  decides whether a separator match is confirmed;
* `sep`: inside the separator's trailing whitespace run.
`acc` holds the current segment reversed; closed segments are emitted
in order, exactly as JS `split` returns them (including the leading
segment before the first match and a trailing empty segment when the
input ends inside a match).
-/

inductive SplitState where
  | norm : SplitState
  | digits (ds : List Nat) : SplitState
  | dot (ds : List Nat) : SplitState
  | sep : SplitState

/-- The `split(/\d+\.\s+/)` automaton (see the section comment). -/
def splitAux : List Nat → SplitState → List Nat → List (List Nat)
  | [], .norm, acc => [acc.reverse]
  | [], .digits ds, acc => [(ds ++ acc).reverse]
  | [], .dot ds, acc => [(46 :: ds ++ acc).reverse]
  | [], .sep, acc => [acc.reverse, []]
  | c :: rest, .norm, acc =>
    if isDigitCode c then splitAux rest (.digits [c]) acc
    else splitAux rest .norm (c :: acc)
  | c :: rest, .digits ds, acc =>
    if isDigitCode c then splitAux rest (.digits (c :: ds)) acc
    else if c = 46 then splitAux rest (.dot ds) acc
    else splitAux rest .norm (c :: ds ++ acc)
  | c :: rest, .dot ds, acc =>
    if isSpaceCode c then splitAux rest .sep acc
    else if isDigitCode c then splitAux rest (.digits [c]) (46 :: ds ++ acc)
    else splitAux rest .norm (c :: 46 :: ds ++ acc)
  | c :: rest, .sep, acc =>
    if isSpaceCode c then splitAux rest .sep acc
    else acc.reverse ::
      (if isDigitCode c then splitAux rest (.digits [c]) []
       else splitAux rest .norm [c])

/-- JS `text.split(/\d+\.\s+/)`: the list of segments between matches. -/
def splitNumbered (text : List Nat) : List (List Nat) :=
  splitAux text .norm []

/-- The trimmed segments after dropping the leading one
(`split(...).slice(1).map(msg => msg.trim())`). -/
def trimmedSegments (text : List Nat) : List (List Nat) :=
  ((splitNumbered text).drop 1).map trimCodes

/-- `AIOperations._parseMessages` (config field `maxCommitLength` passed
explicitly; JS numbers are modelled as `Int`). -/
def parseMessages (maxCommitLength : Int) (text : List Nat) : List (List Nat) :=
  (trimmedSegments text).filter
    (fun msg => decide (0 < msg.length) && decide ((msg.length : Int) ≤ maxCommitLength))

/-!
 ## Configuration record and `Config.load` (src/config/config.js)

```js
export const DEFAULT_CONFIG = {
    maxCommitLength: 70, minMessageLength: 4, apiTimeout: 10000,
    maxRetries: 3, retryDelay: 1000, configVersion: "1.0.0",
};
```
`Config.load` reads the persisted JSON file and returns
`{ ...DEFAULT_CONFIG, ...config }`: fields present in the parsed file
override the defaults, absent fields fall back.  The filesystem is
externalized: `load` receives the parsed contents of the config file
(`none` models an absent file, in which case the code writes the
defaults out and returns a copy of them).  The error path for an
unreadable/unparsable existing file is not needed by any claim and is
not modelled.
-/

structure ConfigRecord where
  maxCommitLength : Int
  minMessageLength : Int
  apiTimeout : Int
  maxRetries : Int
  retryDelay : Int
  configVersion : List Nat
  apiKey : Option (List Nat) := none
deriving DecidableEq

/-- A parsed persisted config object: each key optionally present. -/
structure StoredConfig where
  maxCommitLength : Option Int := none
  minMessageLength : Option Int := none
  apiTimeout : Option Int := none
  maxRetries : Option Int := none
  retryDelay : Option Int := none
  configVersion : Option (List Nat) := none
  apiKey : Option (List Nat) := none
deriving DecidableEq

def DEFAULT_CONFIG : ConfigRecord :=
  { maxCommitLength := 70
    minMessageLength := 4
    apiTimeout := 10000
    maxRetries := 3
    retryDelay := 1000
    configVersion := strCodes "1.0.0" }

namespace Config

/-- JS object spread `{ ...d, ...p }` restricted to the config keys:
a key present in `p` wins, an absent key keeps `d`'s value. -/
def merge (d : ConfigRecord) (p : StoredConfig) : ConfigRecord :=
  { maxCommitLength := p.maxCommitLength.getD d.maxCommitLength
    minMessageLength := p.minMessageLength.getD d.minMessageLength
    apiTimeout := p.apiTimeout.getD d.apiTimeout
    maxRetries := p.maxRetries.getD d.maxRetries
    retryDelay := p.retryDelay.getD d.retryDelay
    configVersion := p.configVersion.getD d.configVersion
    apiKey := match p.apiKey with | some v => some v | none => d.apiKey }

/-- `Config.load` on the persisted-file contents (`none` = file absent). -/
def load (file : Option StoredConfig) : ConfigRecord :=
  match file with
  | none => DEFAULT_CONFIG
  | some config => merge DEFAULT_CONFIG config

end Config

/-!
 ## Message generator: `generateCommitMessage` (src/services/CommitGen.js)

```js
async generateCommitMessage(diff) {
    let attempts = 0;
    while (attempts < this.config.maxRetries) {
        try {
            ... const result = await Promise.race([model.generateContent(prompt), timeout]);
            return this._parseMessages(result.response.text());
        } catch (error) {
            attempts++;
            if (error.message.includes("quota")) {
                throw new APIError("API rate limit exceeded", true);
            }
            if (attempts === this.config.maxRetries) {
                throw new APIError(`AI generation failed after ${attempts} attempts: ${error.message}`);
            }
            await new Promise((resolve) => setTimeout(resolve, this.config.retryDelay));
        }
    }
}
```

The network is an oracle `o : Nat → AttemptOutcome` giving the result
of the request issued with attempt counter `n` (a timeout loss of the
`Promise.race` is a `failure` whose message is `"API Timeout"`, and is
not distinguished further).

A detail of the module matters here: `CommitGen.js`'s only import is
`GoogleGenerativeAI` (line 1); the `APIError` class defined and
exported by `src/error/error.js` is never imported.  ES modules have
per-module scope and run in strict mode, so at lines 25 and 28 the
expression `new APIError(...)` evaluates an unbound identifier and
itself raises `ReferenceError: APIError is not defined` — inside the
catch block, hence uncaught — and the async call rejects with that
`ReferenceError`.  Neither the `APIError("API rate limit exceeded",
true)` value nor the `` APIError(`AI generation failed after
${attempts} attempts: ...`) `` value is ever constructed.  The embedding
is faithful to this: both failure classifications produce
`referenceError`, and the `apiError` constructor (the outcome the
surrounding code and `error.js` intend) is kept in the outcome type
precisely so that theorems can state that the module's behavior never
reaches it.  The loop therefore either returns the parsed list,
rejects with the `ReferenceError`, or — when the guard is initially
false — falls through and returns `undefined` (`noValue`).
-/

inductive AttemptOutcome where
  | success (text : List Nat) : AttemptOutcome
  | failure (message : List Nat) : AttemptOutcome
deriving DecidableEq

inductive GenOutcome where
  | messages (msgs : List (List Nat)) : GenOutcome
  | apiError (message : List Nat) (isRateLimit : Bool) : GenOutcome
  | referenceError (message : List Nat) : GenOutcome
  | noValue : GenOutcome
deriving DecidableEq

/-- The message of the `ReferenceError` raised by evaluating the
unbound name `APIError` in `CommitGen.js` (lines 25 and 28). -/
def refErrorText : List Nat := strCodes "APIError is not defined"

def quotaCodes : List Nat := strCodes "quota"

/-- The retry loop of `generateCommitMessage`, entered with counter value
`attempts`.  Mirrors the source statement for statement: guard, request,
`attempts++`, quota classification, exhaustion check, retry — except
that the two `throw new APIError(...)` statements themselves crash with
`ReferenceError("APIError is not defined")` because the class is not
imported (see the section comment), so both produce `referenceError`. -/
def genFrom (cfg : ConfigRecord) (o : Nat → AttemptOutcome) (attempts : Nat) : GenOutcome :=
  if h : (attempts : Int) < cfg.maxRetries then
    match o attempts with
    | .success text => .messages (parseMessages cfg.maxCommitLength text)
    | .failure message =>
      if seqContains quotaCodes message then .referenceError refErrorText
      else if ((attempts + 1 : Nat) : Int) = cfg.maxRetries then
        .referenceError refErrorText
      else genFrom cfg o (attempts + 1)
  else .noValue
termination_by cfg.maxRetries.toNat - attempts
decreasing_by omega

/-- `AIOperations.generateCommitMessage` (the `diff` argument only feeds
the prompt, which the oracle already absorbs). -/
def generateCommitMessage (cfg : ConfigRecord) (o : Nat → AttemptOutcome) : GenOutcome :=
  genFrom cfg o 0

/-!
 ## Repository gateway (src/services/gitOperations.js)

`GitError` carries a message; `child_process.exec` is externalized:
`ExecResult.ok stdout` models a zero exit status, `ExecResult.err m`
a rejection whose `error.message` is `m`.
-/

structure GitError where
  message : List Nat
deriving DecidableEq

inductive ExecResult where
  | ok (stdout : List Nat) : ExecResult
  | err (message : List Nat) : ExecResult

/-- `GitOperations.getDiff`, as a function of the result of
`exec("git diff --cached")`.  The inner `GitError("No staged changes
found")` passes through the catch unchanged (`instanceof GitError`
re-throw); any other rejection is wrapped. -/
def getDiff (r : ExecResult) : Except GitError (List Nat) :=
  match r with
  | .ok stdout =>
    if trimCodes stdout = [] then .error ⟨strCodes "No staged changes found"⟩
    else .ok stdout
  | .err message => .error ⟨strCodes "Failed to get git diff: " ++ message⟩

/-- The shell command string built by `GitOperations.commit`:
the template literal `git commit -m "${message}"`. -/
def commitCmd (message : List Nat) : List Nat :=
  strCodes "git commit -m \"" ++ message ++ strCodes "\""

/-- `GitOperations.commit`: runs the interpolated command through the
shell (`ex` is the `exec` boundary, keyed by the full command string)
and wraps any failure in `GitError`. -/
def commit (message : List Nat) (ex : List Nat → ExecResult) : Except GitError Unit :=
  match ex (commitCmd message) with
  | .ok _ => .ok ()
  | .err e => .error ⟨strCodes "Commit failed: " ++ e⟩

/-- Modelled from the spec: the shell's field splitting of the command
string handed to `child_process.exec` — the code itself delegates this
to `/bin/sh`, which is outside the repository.  The spec states
"Commit messages are passed as a single quoted argument; implementers
must escape embedded double-quotes/backticks to avoid shell injection".
This models POSIX double-quote handling: an unescaped `"` toggles quote
mode, an unquoted space (code 32) separates fields, every other code
unit is literal.  Substitution characters (backslash, backtick, dollar)
are given no special meaning here, so conclusions are only drawn for
messages avoiding them.  `inQ` = inside double quotes, `cur` = the
current field reversed, `started` = whether the current field exists
(so that `""` yields an empty field). -/
def shFields : List Nat → Bool → List Nat → Bool → List (List Nat)
  | [], _, cur, started => if started then [cur.reverse] else []
  | c :: rest, inQ, cur, started =>
    if c = 34 then shFields rest (!inQ) cur true
    else if c = 32 ∧ inQ = false then
      (if started then [cur.reverse] else []) ++ shFields rest inQ [] false
    else shFields rest inQ (c :: cur) true

/-!
 ## Credential store: `Config.encrypt` / `Config.decrypt` (src/config/config.js)

```js
static getEncryptionKey() {
    const baseKey = process.env.ENCRYPTION_KEY || "default-secure-key-123";
    return crypto.createHash("sha256").update(baseKey).digest();
}
static encrypt(text) {
    const iv = crypto.randomBytes(16);
    const key = this.getEncryptionKey();
    const cipher = crypto.createCipheriv("aes-256-gcm", key, iv);
    const encrypted = Buffer.concat([cipher.update(text, "utf8"), cipher.final()]);
    const authTag = cipher.getAuthTag();
    return Buffer.concat([iv, authTag, encrypted]).toString("base64");
}
static decrypt(encryptedData) {
    const buffer = Buffer.from(encryptedData, "base64");
    const iv = buffer.slice(0, 16);
    const authTag = buffer.slice(16, 32);
    const encrypted = buffer.slice(32);
    const key = this.getEncryptionKey();
    const decipher = crypto.createDecipheriv("aes-256-gcm", key, iv);
    decipher.setAuthTag(authTag);
    return decipher.update(encrypted) + decipher.final("utf8");
}
```

The repository's own contribution — key selection, the
`iv ‖ authTag ‖ ciphertext` layout, base64 framing, and the slicing on
decryption — is embedded from the source above.  The two cryptographic
primitives live in Node's `crypto`, outside the repository, and are
modelled (see `digestModel`, `ksByte`, `tagNum`): a deterministic
32-byte digest, a CTR-style keystream cipher (byte i of the ciphertext
is plaintext byte i XOR a key/IV/position-determined keystream byte),
and a 16-byte authentication tag that is a position-weighted sum of the
IV and ciphertext bytes mod 2^128, with odd weights so that any
single-byte change provably changes the tag.  The model preserves the
interface shape of AES-256-GCM (fresh 16-byte IV parameter, 32-byte
key, 16-byte tag over IV+ciphertext, stream encryption) and the two
properties the spec assigns to the primitive: decryption inverts
encryption under the same key, and a tag mismatch fails.
-/

/-- Little-endian byte serialization, exactly `k` bytes. -/
def toBytesLE : Nat → Nat → List Nat
  | 0, _ => []
  | k + 1, n => n % 256 :: toBytesLE k (n / 256)

/-- Little-endian byte deserialization. -/
def fromBytesLE : List Nat → Nat
  | [] => 0
  | b :: bs => b + 256 * fromBytesLE bs

/-- Modelled from the spec: `crypto.createHash("sha256")` — a
deterministic digest of the passphrase to a 256-bit (32-byte) key. -/
def digestModel (pass : List Nat) : List Nat :=
  toBytesLE 32 (fromBytesLE pass % 2 ^ 256)

/-- `Config.getEncryptionKey`: hash the `ENCRYPTION_KEY` environment
value, falling back to the hardcoded default passphrase. -/
def getEncryptionKey (env : Option (List Nat)) : List Nat :=
  digestModel (env.getD (strCodes "default-secure-key-123"))

/-- Modelled from the spec (AEAD cipher): keystream byte `i` under
`key`/`iv`. -/
def ksByte (key iv : List Nat) (i : Nat) : Nat :=
  (fromBytesLE key + fromBytesLE iv + i) % 256

/-- Modelled from the spec (AEAD cipher): CTR-style stream
encryption/decryption starting at counter `i` (XOR is its own
inverse, as in AES-GCM's CTR mode). -/
def ctrStream (key iv : List Nat) (i : Nat) : List Nat → List Nat
  | [] => []
  | p :: ps => (p ^^^ ksByte key iv i) :: ctrStream key iv (i + 1) ps

/-- Position-weighted byte sum: `Σ bytes[j] * (2*(k+j)+1)`.  The weights
are odd, so a single-byte change at any position changes the sum by a
nonzero value mod `2^128` (its 2-adic valuation is below 128). -/
def polyHash : Nat → List Nat → Nat
  | _, [] => 0
  | k, b :: bs => b * (2 * k + 1) + polyHash (k + 1) bs

/-- Modelled from the spec (AEAD authentication tag): a 128-bit MAC
over the IV and ciphertext under the key. -/
def tagNum (key iv ct : List Nat) : Nat :=
  (fromBytesLE key + polyHash 0 (iv ++ ct)) % 2 ^ 128

/-- The 16 tag bytes (`cipher.getAuthTag()` in the model). -/
def tagBytes (key iv ct : List Nat) : List Nat :=
  toBytesLE 16 (tagNum key iv ct)

/-- The decoded encrypted blob `iv ‖ authTag ‖ ciphertext`
(`Buffer.concat([iv, authTag, encrypted])`). -/
def encryptBytes (key iv text : List Nat) : List Nat :=
  iv ++ tagBytes key iv (ctrStream key iv 0 text) ++ ctrStream key iv 0 text

/-- Decryption of a decoded blob: slice `[0,16)`, `[16,32)`, `[32,…)`,
verify the tag, and stream-decrypt; `none` models the
`DecryptionError` thrown when `decipher.final()` rejects the tag. -/
def decryptBytes (key buffer : List Nat) : Option (List Nat) :=
  let iv := buffer.take 16
  let authTag := (buffer.drop 16).take 16
  let encrypted := buffer.drop 32
  if tagBytes key iv encrypted = authTag then some (ctrStream key iv 0 encrypted)
  else none

/-- The base64 alphabet, by sextet value (`A–Z`, `a–z`, `0–9`, `+`, `/`). -/
def sextetCode (n : Nat) : Nat :=
  if n < 26 then 65 + n
  else if n < 52 then 97 + (n - 26)
  else if n < 62 then 48 + (n - 52)
  else if n = 62 then 43
  else 47

/-- Inverse of `sextetCode` on the alphabet. -/
def codeSextet (c : Nat) : Nat :=
  if 65 ≤ c ∧ c ≤ 90 then c - 65
  else if 97 ≤ c ∧ c ≤ 122 then c - 97 + 26
  else if 48 ≤ c ∧ c ≤ 57 then c - 48 + 52
  else if c = 43 then 62
  else 63

/-- `Buffer.prototype.toString("base64")`: 3 bytes → 4 sextet
characters, with `=` (code 61) padding. -/
def b64Encode : List Nat → List Nat
  | [] => []
  | [a] => [sextetCode (a / 4), sextetCode (a % 4 * 16), 61, 61]
  | [a, b] => [sextetCode (a / 4), sextetCode (a % 4 * 16 + b / 16), sextetCode (b % 16 * 4), 61]
  | a :: b :: c :: rest =>
    sextetCode (a / 4) :: sextetCode (a % 4 * 16 + b / 16) ::
      sextetCode (b % 16 * 4 + c / 64) :: sextetCode (c % 64) :: b64Encode rest

/-- Sextet values back to bytes (4 sextets → 3 bytes, a trailing pair
or triple → 1 or 2 bytes). -/
def sextetsToBytes : List Nat → List Nat
  | s1 :: s2 :: s3 :: s4 :: rest =>
    (s1 * 4 + s2 / 16) :: (s2 % 16 * 16 + s3 / 4) :: (s3 % 4 * 64 + s4) ::
      sextetsToBytes rest
  | [s1, s2] => [s1 * 4 + s2 / 16]
  | [s1, s2, s3] => [s1 * 4 + s2 / 16, s2 % 16 * 16 + s3 / 4]
  | _ => []

/-- `Buffer.from(str, "base64")`: drop padding, map characters to
sextet values, reassemble bytes. -/
def b64Decode (cs : List Nat) : List Nat :=
  sextetsToBytes ((cs.filter (fun c => c != 61)).map codeSextet)

namespace Config

/-- `Config.encrypt`.  The fresh random IV (`crypto.randomBytes(16)`)
and the environment passphrase are explicit parameters. -/
def encrypt (env : Option (List Nat)) (iv text : List Nat) : List Nat :=
  b64Encode (encryptBytes (getEncryptionKey env) iv text)

/-- `Config.decrypt` (`none` models `DecryptionError`). -/
def decrypt (env : Option (List Nat)) (encryptedData : List Nat) : Option (List Nat) :=
  decryptBytes (getEncryptionKey env) (b64Decode encryptedData)

end Config

/-!
 ## Lemmas about the retry loop
-/

theorem genFrom_stop (cfg : ConfigRecord) (o : Nat → AttemptOutcome) (attempts : Nat)
    (h : ¬ ((attempts : Int) < cfg.maxRetries)) : genFrom cfg o attempts = .noValue := by
  rw [genFrom, dif_neg h]

theorem genFrom_success (cfg : ConfigRecord) (o : Nat → AttemptOutcome) (attempts : Nat)
    (h : (attempts : Int) < cfg.maxRetries) (t : List Nat) (ht : o attempts = .success t) :
    genFrom cfg o attempts = .messages (parseMessages cfg.maxCommitLength t) := by
  rw [genFrom, dif_pos h, ht]

theorem genFrom_quota (cfg : ConfigRecord) (o : Nat → AttemptOutcome) (attempts : Nat)
    (h : (attempts : Int) < cfg.maxRetries) (m : List Nat) (hm : o attempts = .failure m)
    (hq : seqContains quotaCodes m = true) :
    genFrom cfg o attempts = .referenceError refErrorText := by
  rw [genFrom, dif_pos h, hm]
  simp [hq]

theorem genFrom_exhaust (cfg : ConfigRecord) (o : Nat → AttemptOutcome) (attempts : Nat)
    (h : (attempts : Int) < cfg.maxRetries) (m : List Nat) (hm : o attempts = .failure m)
    (hq : seqContains quotaCodes m = false)
    (he : (attempts : Int) + 1 = cfg.maxRetries) :
    genFrom cfg o attempts = .referenceError refErrorText := by
  rw [genFrom, dif_pos h, hm]
  simp [hq, he]

theorem genFrom_retry (cfg : ConfigRecord) (o : Nat → AttemptOutcome) (attempts : Nat)
    (h : (attempts : Int) < cfg.maxRetries) (m : List Nat) (hm : o attempts = .failure m)
    (hq : seqContains quotaCodes m = false)
    (he : (attempts : Int) + 1 ≠ cfg.maxRetries) :
    genFrom cfg o attempts = genFrom cfg o (attempts + 1) := by
  rw [genFrom, dif_pos h, hm]
  simp [hq, he]

/-- If the first `k` attempts fail with non-quota errors and the guard
still allows attempt `k`, the call reaches the loop iteration with
counter `k`. -/
theorem genFrom_run_to (cfg : ConfigRecord) (o : Nat → AttemptOutcome) (k : Nat)
    (hk : (k : Int) < cfg.maxRetries)
    (hpre : ∀ j, j < k → ∃ m, o j = .failure m ∧ seqContains quotaCodes m = false) :
    generateCommitMessage cfg o = genFrom cfg o k := by
  induction k with
  | zero => rfl
  | succ n ih =>
    have hn : (n : Int) < cfg.maxRetries := by omega
    obtain ⟨m, hm, hq⟩ := hpre n (by omega)
    rw [ih hn (fun j hj => hpre j (by omega)),
      genFrom_retry cfg o n hn m hm hq (by omega)]

/-- Totality of the module's actual outcomes: every run returns a
parsed list, rejects with the `ReferenceError` raised by the unbound
`APIError` name, or falls through to `undefined` — an `apiError`
rejection is never produced. -/
theorem genFrom_outcomes (cfg : ConfigRecord) (o : Nat → AttemptOutcome) :
    ∀ fuel attempts, cfg.maxRetries.toNat - attempts = fuel →
      (∃ msgs, genFrom cfg o attempts = .messages msgs) ∨
        genFrom cfg o attempts = .referenceError refErrorText ∨
        genFrom cfg o attempts = .noValue := by
  intro fuel
  induction fuel with
  | zero =>
    intro attempts hfuel
    exact Or.inr (Or.inr (genFrom_stop cfg o attempts (by omega)))
  | succ n ih =>
    intro attempts hfuel
    by_cases h : (attempts : Int) < cfg.maxRetries
    · rcases ho : o attempts with t | mm
      · exact Or.inl ⟨_, genFrom_success cfg o attempts h t ho⟩
      · by_cases hq : seqContains quotaCodes mm = true
        · exact Or.inr (Or.inl (genFrom_quota cfg o attempts h mm ho hq))
        · have hq' : seqContains quotaCodes mm = false := by simpa using hq
          by_cases he : (attempts : Int) + 1 = cfg.maxRetries
          · exact Or.inr (Or.inl (genFrom_exhaust cfg o attempts h mm ho hq' he))
          · rw [genFrom_retry cfg o attempts h mm ho hq' he]
            exact ih (attempts + 1) (by omega)
    · exact Or.inr (Or.inr (genFrom_stop cfg o attempts h))

/-!
 ## Claims about the message generator's retry behavior
-/

/-- C1 (code bug): with `maxRetries = 3` the success part of the claim
holds — two non-quota failures then a success return the parsed list of
the third attempt (first conjunct) — but neither asserted error
behavior exists in the module.  `CommitGen.js` never imports
`APIError`, so on a quota-bearing failure the call rejects with
`ReferenceError("APIError is not defined")` instead of
`APIError(rateLimited = true)` (second conjunct), and after three
transient failures it rejects with the same `ReferenceError` instead of
`APIError(rateLimited = false)` reporting 3 attempts (third conjunct).
Evaluated at the claim's inputs under the default config
(`maxRetries = 3`). -/
theorem claim_C1_code_bug :
    generateCommitMessage DEFAULT_CONFIG
        (fun n => if n < 2 then .failure (strCodes "API Timeout")
                  else .success (strCodes "1. feat: a\n")) =
      .messages (parseMessages DEFAULT_CONFIG.maxCommitLength (strCodes "1. feat: a\n")) ∧
    generateCommitMessage DEFAULT_CONFIG
        (fun _ => .failure (strCodes "You exceeded your current quota.")) =
      .referenceError refErrorText ∧
    generateCommitMessage DEFAULT_CONFIG
        (fun _ => .failure (strCodes "API Timeout")) =
      .referenceError refErrorText := by
  refine ⟨?_, ?_, ?_⟩
  · have hpre : ∀ j, j < 2 → ∃ mj,
        (fun n => if n < 2 then AttemptOutcome.failure (strCodes "API Timeout")
                  else AttemptOutcome.success (strCodes "1. feat: a\n")) j = .failure mj ∧
          seqContains quotaCodes mj = false := by
      intro j hj
      exact ⟨strCodes "API Timeout", by simp [hj], by decide⟩
    rw [genFrom_run_to _ _ 2 (by decide) hpre]
    exact genFrom_success _ _ 2 (by decide) _ (by decide)
  · exact genFrom_quota _ _ 0 (by decide) _ rfl (by decide)
  · have hpre : ∀ j, j < 2 → ∃ mj,
        (fun _ => AttemptOutcome.failure (strCodes "API Timeout")) j = .failure mj ∧
          seqContains quotaCodes mj = false :=
      fun j _ => ⟨strCodes "API Timeout", rfl, by decide⟩
    rw [genFrom_run_to _ _ 2 (by decide) hpre]
    exact genFrom_exhaust _ _ 2 (by decide) _ rfl (by decide) (by decide)

/-- C9: if `config.maxRetries ≤ 0` the while-guard is false at entry,
the loop body is never entered (the result does not depend on the
request oracle at all), and the call returns `undefined` rather than
raising. -/
theorem claim_C9_zero_retries (cfg : ConfigRecord) (hmr : cfg.maxRetries ≤ 0)
    (o : Nat → AttemptOutcome) : generateCommitMessage cfg o = .noValue := by
  exact genFrom_stop cfg o 0 (by omega)

theorem claim_C9_witness :
    ({ DEFAULT_CONFIG with maxRetries := 0 } : ConfigRecord).maxRetries ≤ 0 ∧
      generateCommitMessage { DEFAULT_CONFIG with maxRetries := 0 }
        (fun _ => .failure []) = .noValue :=
  ⟨by decide, claim_C9_zero_retries _ (by decide) _⟩

/-- C10 (code bug): the asserted `APIError` behaviors do not exist in
the module.  (i) On every attempt on which the claim asserts
`APIError(rateLimited = true)` — a quota-bearing error message after
any run of non-quota failures, including the final permitted attempt
(`(k : Int) + 1 = maxRetries`) — the call instead rejects with
`ReferenceError("APIError is not defined")`, because `CommitGen.js`
never imports `APIError`; (ii) no run of the module ever produces an
`apiError` outcome at all (in particular no attempts-exhausted
`APIError(rateLimited = false)`): every run returns a parsed list,
rejects with that `ReferenceError`, or returns `undefined`. -/
theorem claim_C10_code_bug (cfg : ConfigRecord) (o : Nat → AttemptOutcome) :
    (∀ (k : Nat) (m : List Nat), (k : Int) < cfg.maxRetries →
      (∀ j, j < k → ∃ mj, o j = .failure mj ∧ seqContains quotaCodes mj = false) →
      o k = .failure m → seqContains quotaCodes m = true →
      generateCommitMessage cfg o = .referenceError refErrorText) ∧
    ((∃ msgs, generateCommitMessage cfg o = .messages msgs) ∨
      generateCommitMessage cfg o = .referenceError refErrorText ∨
      generateCommitMessage cfg o = .noValue) := by
  constructor
  · intro k m hk hpre hm hq
    rw [genFrom_run_to cfg o k hk hpre]
    exact genFrom_quota cfg o k hk m hm hq
  · exact genFrom_outcomes cfg o (cfg.maxRetries.toNat - 0) 0 rfl

theorem claim_C10_witness :
    ((((0 : Nat) : Int) < ({ DEFAULT_CONFIG with maxRetries := 1 } : ConfigRecord).maxRetries) ∧
      seqContains quotaCodes (strCodes "You exceeded your current quota.") = true) ∧
      generateCommitMessage { DEFAULT_CONFIG with maxRetries := 1 }
        (fun _ => .failure (strCodes "You exceeded your current quota.")) =
        .referenceError refErrorText :=
  ⟨⟨by decide, by decide⟩,
    (claim_C10_code_bug _ _).1 0 (strCodes "You exceeded your current quota.")
      (by decide) (fun j hj => absurd hj (by omega)) rfl (by decide)⟩

/-!
 ## Claims about parsing, the repository gateway, and configuration
-/

/-- C7: the parse step on `"1. feat: add X\n2. fix: correct Y\n"` with
`maxCommitLength = 70` returns exactly `["feat: add X", "fix: correct Y"]`
in that order. -/
theorem claim_C7_parse_example :
    parseMessages 70 (strCodes "1. feat: add X\n2. fix: correct Y\n") =
      [strCodes "feat: add X", strCodes "fix: correct Y"] := by
  decide

/-- C8: every element of the parse step's result has
`0 < length ≤ maxCommitLength`, and is one of the trimmed segments
verbatim (never a truncation); conversely a trimmed segment longer than
`maxCommitLength` is dropped in its entirety. -/
theorem claim_C8_length_filtering (maxCommitLength : Int) (text : List Nat) :
    (∀ m ∈ parseMessages maxCommitLength text,
      (0 < m.length ∧ (m.length : Int) ≤ maxCommitLength) ∧ m ∈ trimmedSegments text) ∧
    (∀ seg ∈ trimmedSegments text, maxCommitLength < (seg.length : Int) →
      seg ∉ parseMessages maxCommitLength text) := by
  constructor
  · intro m hm
    rw [parseMessages, List.mem_filter] at hm
    obtain ⟨hmem, hpred⟩ := hm
    simp only [Bool.and_eq_true, decide_eq_true_eq] at hpred
    exact ⟨hpred, hmem⟩
  · intro seg _ hlong hmem
    rw [parseMessages, List.mem_filter] at hmem
    simp only [Bool.and_eq_true, decide_eq_true_eq] at hmem
    omega

theorem claim_C8_witness :
    (strCodes "feat: add X" ∈ parseMessages 70 (strCodes "Sure!\n1. feat: add X\n")) ∧
    (0 < (strCodes "feat: add X").length ∧
      ((strCodes "feat: add X").length : Int) ≤ 70) ∧
    strCodes "feat: add X" ∈ trimmedSegments (strCodes "Sure!\n1. feat: add X\n") :=
  ⟨by decide,
    (claim_C8_length_filtering 70 (strCodes "Sure!\n1. feat: add X\n")).1
      (strCodes "feat: add X") (by decide)⟩

/-- C5: `getDiff` fails with `GitError("No staged changes found")`
whenever the process output trims to the empty string, wraps every
process failure in `GitError("Failed to get git diff: …")`, and a
successful return value never trims to empty. -/
theorem claim_C5_empty_diff :
    (∀ stdout : List Nat, trimCodes stdout = [] →
      getDiff (.ok stdout) = .error ⟨strCodes "No staged changes found"⟩) ∧
    (∀ m : List Nat,
      getDiff (.err m) = .error ⟨strCodes "Failed to get git diff: " ++ m⟩) ∧
    (∀ (r : ExecResult) (s : List Nat), getDiff r = .ok s → trimCodes s ≠ []) := by
  refine ⟨?_, ?_, ?_⟩
  · intro stdout ht
    rw [getDiff, if_pos ht]
  · intro m
    rfl
  · intro r s hr
    cases r with
    | ok stdout =>
      rw [getDiff] at hr
      by_cases ht : trimCodes stdout = []
      · rw [if_pos ht] at hr
        exact absurd hr (by simp)
      · rw [if_neg ht] at hr
        obtain rfl : stdout = s := by simpa using hr
        exact ht
    | err m => exact absurd hr (by simp [getDiff])

theorem claim_C5_witness :
    trimCodes (strCodes "  \n\t") = [] ∧
      getDiff (.ok (strCodes "  \n\t")) = .error ⟨strCodes "No staged changes found"⟩ :=
  ⟨by decide, (claim_C5_empty_diff).1 (strCodes "  \n\t") (by decide)⟩

/-- C6: for every parsable persisted config object, `Config.load`
returns the defaults overridden by the present fields: absent fields
take the documented defaults (70, 4, 10000, 3, 1000, "1.0.0") and
present fields keep the stored value; in particular a file containing
only `{"maxRetries": 5}` yields the defaults with `maxRetries = 5`.
A missing field never causes a read failure (`load` is total on parsed
objects). -/
theorem claim_C6_default_merge :
    (∀ p : StoredConfig, Config.load (some p) =
      { maxCommitLength := p.maxCommitLength.getD 70
        minMessageLength := p.minMessageLength.getD 4
        apiTimeout := p.apiTimeout.getD 10000
        maxRetries := p.maxRetries.getD 3
        retryDelay := p.retryDelay.getD 1000
        configVersion := p.configVersion.getD (strCodes "1.0.0")
        apiKey := match p.apiKey with | some v => some v | none => none }) ∧
    Config.load (some { maxRetries := some 5 }) =
      { DEFAULT_CONFIG with maxRetries := 5 } := by
  exact ⟨fun p => rfl, by decide⟩

/-!
 ## Claim C4: commit message passing through the shell
-/

/-- Inside double quotes, ordinary code units accumulate into the
current field until the closing quote; the whole run becomes (part of)
one field. -/
theorem shFields_quoted (m : List Nat) : ∀ cur : List Nat, (∀ c ∈ m, c ≠ 34) →
    shFields (m ++ [34]) true cur true = [cur.reverse ++ m] := by
  induction m with
  | nil =>
    intro cur _
    simp [shFields]
  | cons c cs ih =>
    intro cur h
    have hc : c ≠ 34 := h c (by simp)
    rw [List.cons_append]
    simp only [shFields]
    rw [if_neg hc, if_neg (by simp)]
    rw [ih (c :: cur) (fun x hx => h x (by simp [hx]))]
    simp

/-- One scanner step on an ordinary code unit (not a quote, not an
unquoted space). -/
theorem shFields_ch (c : Nat) (rest cur : List Nat) (inQ started : Bool)
    (h1 : c ≠ 34) (h2 : ¬(c = 32 ∧ inQ = false)) :
    shFields (c :: rest) inQ cur started = shFields rest inQ (c :: cur) true := by
  simp only [shFields]
  rw [if_neg h1, if_neg h2]

/-- One scanner step on an unquoted space with a field in progress. -/
theorem shFields_sp (rest cur : List Nat) :
    shFields (32 :: rest) false cur true =
      cur.reverse :: shFields rest false [] false := by
  simp [shFields]

/-- One scanner step on a double quote. -/
theorem shFields_qt (rest cur : List Nat) (inQ started : Bool) :
    shFields (34 :: rest) inQ cur started = shFields rest (!inQ) cur true := by
  simp [shFields]

/-- The field splitting of `git commit -m "${m}"` for a message free of
double quotes: the shell hands git exactly the four fields
`git`, `commit`, `-m`, `m`. -/
theorem shFields_commitCmd (m : List Nat) (h : ∀ c ∈ m, c ≠ 34) :
    shFields (commitCmd m) false [] false =
      [strCodes "git", strCodes "commit", strCodes "-m", m] := by
  have h1 : strCodes "git commit -m \"" =
      [103, 105, 116, 32, 99, 111, 109, 109, 105, 116, 32, 45, 109, 32, 34] := by decide
  have h2 : strCodes "\"" = [34] := by decide
  have h3 : strCodes "git" = [103, 105, 116] := by decide
  have h4 : strCodes "commit" = [99, 111, 109, 109, 105, 116] := by decide
  have h5 : strCodes "-m" = [45, 109] := by decide
  rw [commitCmd, h1, h2, h3, h4, h5]
  simp only [List.cons_append, List.nil_append, List.append_assoc]
  rw [shFields_ch 103 _ _ _ _ (by decide) (by decide),
    shFields_ch 105 _ _ _ _ (by decide) (by decide),
    shFields_ch 116 _ _ _ _ (by decide) (by decide),
    shFields_sp,
    shFields_ch 99 _ _ _ _ (by decide) (by decide),
    shFields_ch 111 _ _ _ _ (by decide) (by decide),
    shFields_ch 109 _ _ _ _ (by decide) (by decide),
    shFields_ch 109 _ _ _ _ (by decide) (by decide),
    shFields_ch 105 _ _ _ _ (by decide) (by decide),
    shFields_ch 116 _ _ _ _ (by decide) (by decide),
    shFields_sp,
    shFields_ch 45 _ _ _ _ (by decide) (by decide),
    shFields_ch 109 _ _ _ _ (by decide) (by decide),
    shFields_sp,
    shFields_qt]
  rw [show (!false) = true from rfl, shFields_quoted m [] h]
  simp

/-- C4 (counterexample): the claim "commit passes exactly the string
`m` as the message for every `m`, including ones containing double
quotes" is false on the code: `git commit -m "${message}"` lets an
embedded `"` escape the quoting, so `fix: set "debug" flag` reaches
git as the single field `fix: set debug flag`. -/
theorem claim_C4_counterexample :
    shFields (commitCmd (strCodes "fix: set \"debug\" flag")) false [] false ≠
      [strCodes "git", strCodes "commit", strCodes "-m",
        strCodes "fix: set \"debug\" flag"] := by
  decide

/-- C4 (amended): for every message free of shell-significant
characters (double quote, backslash, backtick, dollar), the
interpolated command splits into exactly `git commit -m` plus the
untouched message as a single argument; and on process failure `commit`
throws `GitError` carrying the underlying process's error text. -/
theorem claim_C4_amended (m : List Nat)
    (h : ∀ c ∈ m, c ≠ 34 ∧ c ≠ 92 ∧ c ≠ 96 ∧ c ≠ 36) :
    shFields (commitCmd m) false [] false =
      [strCodes "git", strCodes "commit", strCodes "-m", m] ∧
    (∀ (ex : List Nat → ExecResult) (e : List Nat), ex (commitCmd m) = .err e →
      commit m ex = .error ⟨strCodes "Commit failed: " ++ e⟩) := by
  constructor
  · exact shFields_commitCmd m (fun c hc => (h c hc).1)
  · intro ex e hex
    rw [commit, hex]

theorem claim_C4_witness :
    (∀ c ∈ strCodes "feat: add normal mode", c ≠ 34 ∧ c ≠ 92 ∧ c ≠ 96 ∧ c ≠ 36) ∧
      shFields (commitCmd (strCodes "feat: add normal mode")) false [] false =
        [strCodes "git", strCodes "commit", strCodes "-m",
          strCodes "feat: add normal mode"] :=
  ⟨by decide, (claim_C4_amended (strCodes "feat: add normal mode") (by decide)).1⟩

/-!
 ## Lemmas for the credential store
-/

theorem toBytesLE_length (k n : Nat) : (toBytesLE k n).length = k := by
  induction k generalizing n with
  | zero => rfl
  | succ k ih => simp [toBytesLE, ih]

theorem toBytesLE_mem_lt (k n : Nat) : ∀ b ∈ toBytesLE k n, b < 256 := by
  induction k generalizing n with
  | zero => intro b hb; simp [toBytesLE] at hb
  | succ k ih =>
    intro b hb
    rw [toBytesLE] at hb
    rcases List.mem_cons.mp hb with h | h
    · omega
    · exact ih (n / 256) b h

theorem fromBytesLE_toBytesLE (k n : Nat) :
    fromBytesLE (toBytesLE k n) = n % 256 ^ k := by
  induction k generalizing n with
  | zero => simp [toBytesLE, fromBytesLE, Nat.mod_one]
  | succ k ih =>
    rw [toBytesLE, fromBytesLE, ih]
    rw [show (256 : Nat) ^ (k + 1) = 256 * 256 ^ k by ring]
    exact (Nat.mod_mul).symm

theorem toBytesLE_inj (k a b : Nat) (ha : a < 256 ^ k) (hb : b < 256 ^ k)
    (h : toBytesLE k a = toBytesLE k b) : a = b := by
  have := congrArg fromBytesLE h
  rwa [fromBytesLE_toBytesLE, fromBytesLE_toBytesLE,
    Nat.mod_eq_of_lt ha, Nat.mod_eq_of_lt hb] at this

theorem ctrStream_length (key iv : List Nat) :
    ∀ (i : Nat) (ps : List Nat), (ctrStream key iv i ps).length = ps.length := by
  intro i ps
  induction ps generalizing i with
  | nil => rfl
  | cons p ps ih => simp [ctrStream, ih]

theorem ctrStream_ctrStream (key iv : List Nat) :
    ∀ (i : Nat) (ps : List Nat), ctrStream key iv i (ctrStream key iv i ps) = ps := by
  intro i ps
  induction ps generalizing i with
  | nil => rfl
  | cons p ps ih =>
    rw [ctrStream, ctrStream, ih (i + 1)]
    rw [Nat.xor_assoc, Nat.xor_self, Nat.xor_zero]

theorem ctrStream_mem_lt (key iv : List Nat) :
    ∀ (i : Nat) (ps : List Nat), (∀ b ∈ ps, b < 256) →
      ∀ b ∈ ctrStream key iv i ps, b < 256 := by
  intro i ps
  induction ps generalizing i with
  | nil => intro _ b hb; simp [ctrStream] at hb
  | cons p ps ih =>
    intro hps b hb
    rw [ctrStream] at hb
    rcases List.mem_cons.mp hb with h | h
    · subst h
      have h1 : p < 2 ^ 8 := hps p (by simp)
      have h2 : ksByte key iv i < 2 ^ 8 := Nat.mod_lt _ (by norm_num)
      exact Nat.xor_lt_two_pow h1 h2
    · exact ih (i + 1) (fun x hx => hps x (by simp [hx])) b h

theorem polyHash_append (l1 : List Nat) : ∀ (l2 : List Nat) (k : Nat),
    polyHash k (l1 ++ l2) = polyHash k l1 + polyHash (k + l1.length) l2 := by
  induction l1 with
  | nil => intro l2 k; simp [polyHash]
  | cons b bs ih =>
    intro l2 k
    rw [List.cons_append, polyHash, polyHash, ih l2 (k + 1)]
    have hidx : k + 1 + bs.length = k + (b :: bs).length := by simp; omega
    rw [hidx, Nat.add_assoc]

/-- A weighted term with an odd weight changes the value mod `2^128`
whenever its byte coefficient changes: auxiliary one-sided form. -/
theorem modAdd_change_aux (A p x y : Nat) (hx : x < 256) (hyx : y < x) :
    (A + x * (2 * p + 1)) % 2 ^ 128 ≠ (A + y * (2 * p + 1)) % 2 ^ 128 := by
  intro heq
  have hle : A + y * (2 * p + 1) ≤ A + x * (2 * p + 1) := by
    have := Nat.mul_le_mul_right (2 * p + 1) (Nat.le_of_lt hyx)
    omega
  have hdvd : 2 ^ 128 ∣ (A + x * (2 * p + 1)) - (A + y * (2 * p + 1)) :=
    (Nat.modEq_iff_dvd' hle).mp heq.symm
  have hdiff : (A + x * (2 * p + 1)) - (A + y * (2 * p + 1)) = (x - y) * (2 * p + 1) := by
    rw [Nat.sub_mul]
    omega
  rw [hdiff] at hdvd
  have hodd : Nat.Coprime 2 (2 * p + 1) :=
    (Nat.prime_two.coprime_iff_not_dvd).mpr (by omega)
  have hcop : Nat.Coprime (2 ^ 128) (2 * p + 1) := Nat.Coprime.pow_left 128 hodd
  have hdvd2 : 2 ^ 128 ∣ (x - y) := Nat.Coprime.dvd_of_dvd_mul_right hcop hdvd
  have hpos : 0 < x - y := by omega
  have := Nat.le_of_dvd hpos hdvd2
  have hp : (2 : Nat) ^ 128 = 340282366920938463463374607431768211456 := by norm_num
  omega

theorem modAdd_change (A p x y : Nat) (hx : x < 256) (hy : y < 256) (hxy : x ≠ y) :
    (A + x * (2 * p + 1)) % 2 ^ 128 ≠ (A + y * (2 * p + 1)) % 2 ^ 128 := by
  rcases Nat.lt_or_ge y x with h | h
  · exact modAdd_change_aux A p x y hx h
  · have hyx : x < y := by omega
    exact (modAdd_change_aux A p y x hy hyx).symm

/-- Changing one byte of the hashed list changes the MAC value. -/
theorem polyHash_change (C : Nat) (pre suf : List Nat) (x y : Nat)
    (hx : x < 256) (hy : y < 256) (hxy : x ≠ y) :
    (C + polyHash 0 (pre ++ x :: suf)) % 2 ^ 128 ≠
      (C + polyHash 0 (pre ++ y :: suf)) % 2 ^ 128 := by
  rw [polyHash_append, polyHash_append, polyHash, polyHash]
  have h := modAdd_change
    (C + (polyHash 0 pre + polyHash (0 + pre.length + 1) suf)) (0 + pre.length)
    x y hx hy hxy
  convert h using 2 <;> ring

theorem codeSextet_sextetCode (n : Nat) (h : n < 64) : codeSextet (sextetCode n) = n := by
  unfold sextetCode codeSextet
  split_ifs <;> omega

theorem sextetCode_ne_61 (n : Nat) (h : n < 64) : sextetCode n ≠ 61 := by
  unfold sextetCode
  split_ifs <;> omega

theorem filterMap61_sex (s : Nat) (hs : s < 64) (cs : List Nat) :
    ((sextetCode s :: cs).filter (fun c => c != 61)).map codeSextet =
      s :: (cs.filter (fun c => c != 61)).map codeSextet := by
  rw [List.filter_cons_of_pos (by simpa using sextetCode_ne_61 s hs), List.map_cons,
    codeSextet_sextetCode s hs]

theorem filterMap61_pad (cs : List Nat) :
    ((61 :: cs).filter (fun c => c != 61)).map codeSextet =
      (cs.filter (fun c => c != 61)).map codeSextet := by
  rw [List.filter_cons_of_neg (by simp)]

theorem b64Decode_b64Encode (n : Nat) : ∀ bs : List Nat, bs.length ≤ n →
    (∀ b ∈ bs, b < 256) → b64Decode (b64Encode bs) = bs := by
  induction n with
  | zero =>
    intro bs hl _
    have hnil : bs = [] := List.eq_nil_of_length_eq_zero (by omega)
    subst hnil
    rfl
  | succ n ih =>
    intro bs hl hb
    match bs with
    | [] => rfl
    | [a] =>
      have ha : a < 256 := hb a (by simp)
      rw [b64Encode, b64Decode,
        filterMap61_sex _ (by omega), filterMap61_sex _ (by omega),
        filterMap61_pad, filterMap61_pad]
      have e1 : a / 4 * 4 + a % 4 * 16 / 16 = a := by omega
      simp only [sextetsToBytes, List.filter_nil, List.map_nil, e1]
    | [a, b] =>
      have ha : a < 256 := hb a (by simp)
      have hb2 : b < 256 := hb b (by simp)
      rw [b64Encode, b64Decode,
        filterMap61_sex _ (by omega), filterMap61_sex _ (by omega),
        filterMap61_sex _ (by omega), filterMap61_pad]
      have e1 : a / 4 * 4 + (a % 4 * 16 + b / 16) / 16 = a := by omega
      have e2 : (a % 4 * 16 + b / 16) % 16 * 16 + b % 16 * 4 / 4 = b := by omega
      simp only [sextetsToBytes, List.filter_nil, List.map_nil, e1, e2]
    | a :: b :: c :: rest =>
      have ha : a < 256 := hb a (by simp)
      have hb2 : b < 256 := hb b (by simp)
      have hc : c < 256 := hb c (by simp)
      have hrest : b64Decode (b64Encode rest) = rest :=
        ih rest (by simp at hl; omega) (fun x hx => hb x (by simp [hx]))
      rw [b64Decode] at hrest
      rw [b64Encode, b64Decode,
        filterMap61_sex _ (by omega), filterMap61_sex _ (by omega),
        filterMap61_sex _ (by omega), filterMap61_sex _ (by omega)]
      have e1 : a / 4 * 4 + (a % 4 * 16 + b / 16) / 16 = a := by omega
      have e2 : (a % 4 * 16 + b / 16) % 16 * 16 + (b % 16 * 4 + c / 64) / 4 = b := by omega
      have e3 : (b % 16 * 4 + c / 64) % 4 * 64 + c % 64 = c := by omega
      simp only [sextetsToBytes, e1, e2, e3, hrest]

/-- Base64 decoding inverts encoding on byte lists. -/
theorem b64_roundtrip (bs : List Nat) (hb : ∀ b ∈ bs, b < 256) :
    b64Decode (b64Encode bs) = bs :=
  b64Decode_b64Encode bs.length bs (Nat.le_refl _) hb

theorem encryptBytes_mem_lt (key iv text : List Nat) (hivb : ∀ b ∈ iv, b < 256)
    (htb : ∀ b ∈ text, b < 256) : ∀ b ∈ encryptBytes key iv text, b < 256 := by
  intro b hb
  rw [encryptBytes] at hb
  rcases List.mem_append.mp hb with h | h
  · rcases List.mem_append.mp h with h2 | h2
    · exact hivb b h2
    · exact toBytesLE_mem_lt 16 _ b h2
  · exact ctrStream_mem_lt key iv 0 text htb b h

theorem decryptBytes_encryptBytes (key iv text : List Nat) (hiv : iv.length = 16) :
    decryptBytes key (encryptBytes key iv text) = some text := by
  have htag : (tagBytes key iv (ctrStream key iv 0 text)).length = 16 :=
    toBytesLE_length 16 _
  simp only [encryptBytes, decryptBytes]
  rw [List.append_assoc]
  rw [List.take_left' hiv]
  rw [show (32 : Nat) = 16 + 16 from rfl, ← List.drop_drop]
  rw [List.drop_left' hiv]
  rw [List.take_left' htag, List.drop_left' htag]
  rw [if_pos rfl, ctrStream_ctrStream]

/-- C2: for every printable-ASCII plaintext of length 1–500 (and in
fact for arbitrary byte strings), decrypting an encryption under the
same passphrase-derived key returns the original plaintext. -/
theorem claim_C2_roundtrip (env : Option (List Nat)) (iv text : List Nat)
    (hiv : iv.length = 16) (hivb : ∀ b ∈ iv, b < 256)
    (hlen1 : 1 ≤ text.length) (hlen2 : text.length ≤ 500)
    (hascii : ∀ b ∈ text, 32 ≤ b ∧ b ≤ 126) :
    Config.decrypt env (Config.encrypt env iv text) = some text := by
  have htb : ∀ b ∈ text, b < 256 := by
    intro b hb
    have := hascii b hb
    omega
  rw [Config.encrypt, Config.decrypt,
    b64_roundtrip _ (encryptBytes_mem_lt _ _ _ hivb htb)]
  exact decryptBytes_encryptBytes _ _ _ hiv

theorem claim_C2_witness :
    ((List.replicate 16 0 : List Nat).length = 16 ∧
      (∀ b ∈ (List.replicate 16 0 : List Nat), b < 256) ∧
      1 ≤ (strCodes "my-api-key").length ∧ (strCodes "my-api-key").length ≤ 500 ∧
      (∀ b ∈ strCodes "my-api-key", 32 ≤ b ∧ b ≤ 126)) ∧
    Config.decrypt none (Config.encrypt none (List.replicate 16 0) (strCodes "my-api-key")) =
      some (strCodes "my-api-key") :=
  ⟨⟨by decide, by decide, by decide, by decide, by decide⟩,
    claim_C2_roundtrip none _ _ (by decide) (by decide) (by decide) (by decide) (by decide)⟩

theorem getD_append_left' (l1 l2 : List Nat) (i : Nat) (d : Nat) (h : i < l1.length) :
    (l1 ++ l2).getD i d = l1.getD i d := by
  simp [List.getD_eq_getElem?_getD, List.getElem?_append_left h]

theorem getD_append_right' (l1 l2 : List Nat) (i : Nat) (d : Nat) (h : l1.length ≤ i) :
    (l1 ++ l2).getD i d = l2.getD (i - l1.length) d := by
  simp [List.getD_eq_getElem?_getD, List.getElem?_append_right h]

theorem getD_set_self' (l : List Nat) (i : Nat) (a d : Nat) (h : i < l.length) :
    (l.set i a).getD i d = a := by
  simp [List.getD_eq_getElem?_getD, List.getElem?_set_self (by simpa using h)]

theorem set_take_cons_drop (l : List Nat) (i : Nat) (a : Nat) (h : i < l.length) :
    l.set i a = l.take i ++ a :: l.drop (i + 1) := by
  rw [List.set_eq_take_append_cons_drop, if_pos h]

theorem take_getD_drop (l : List Nat) (i : Nat) (h : i < l.length) :
    l.take i ++ l.getD i 0 :: l.drop (i + 1) = l := by
  have hg : l.getD i 0 = l[i] := by
    simp [List.getD_eq_getElem?_getD, List.getElem?_eq_getElem h]
  rw [hg, List.getElem_cons_drop l i h, List.take_append_drop]

theorem getD_lt_of_bound (l : List Nat) (i : Nat) (h : i < l.length)
    (hb : ∀ b ∈ l, b < 256) : l.getD i 0 < 256 := by
  have hg : l.getD i 0 = l[i] := by
    simp [List.getD_eq_getElem?_getD, List.getElem?_eq_getElem h]
  rw [hg]
  exact hb _ (List.getElem_mem h)

/-- Two tags computed over IV‖ciphertext inputs that differ in exactly
one byte are distinct. -/
theorem tagBytes_ne (key ivA ctA ivB ctB pre suf : List Nat) (x y : Nat)
    (hA : ivA ++ ctA = pre ++ x :: suf) (hB : ivB ++ ctB = pre ++ y :: suf)
    (hx : x < 256) (hy : y < 256) (hxy : x ≠ y) :
    tagBytes key ivA ctA ≠ tagBytes key ivB ctB := by
  intro heq
  rw [tagBytes, tagBytes] at heq
  have h1 : tagNum key ivA ctA = tagNum key ivB ctB := by
    have h256 : (256 : Nat) ^ 16 = 2 ^ 128 := by norm_num
    refine toBytesLE_inj 16 _ _ ?_ ?_ heq
    · rw [h256, tagNum]
      exact Nat.mod_lt _ (by norm_num)
    · rw [h256, tagNum]
      exact Nat.mod_lt _ (by norm_num)
  rw [tagNum, tagNum, hA, hB] at h1
  exact polyHash_change (fromBytesLE key) pre suf x y hx hy hxy h1

/-- `decryptBytes` on a blob presented as three well-sized segments. -/
theorem decryptBytes_parts (key ivp tagp ctp : List Nat)
    (h1 : ivp.length = 16) (h2 : tagp.length = 16) :
    decryptBytes key (ivp ++ tagp ++ ctp) =
      if tagBytes key ivp ctp = tagp then some (ctrStream key ivp 0 ctp) else none := by
  simp only [decryptBytes]
  rw [List.append_assoc, List.take_left' h1,
    show (32 : Nat) = 16 + 16 from rfl, ← List.drop_drop, List.drop_left' h1,
    List.take_left' h2, List.drop_left' h2]

/-- Tamper detection over a decoded blob `iv ‖ tag ‖ ct`: replacing any
single byte by a different value makes the tag check fail. -/
theorem decryptBytes_tamper_gen (key iv ct : List Nat) (i bNew : Nat)
    (hiv : iv.length = 16) (hivb : ∀ b ∈ iv, b < 256) (hctb : ∀ b ∈ ct, b < 256)
    (hi : i < 32 + ct.length) (hbNew : bNew < 256)
    (hne : bNew ≠ (iv ++ tagBytes key iv ct ++ ct).getD i 0) :
    decryptBytes key ((iv ++ tagBytes key iv ct ++ ct).set i bNew) = none := by
  have hT : (tagBytes key iv ct).length = 16 := by
    rw [tagBytes]
    exact toBytesLE_length 16 _
  have h32 : (iv ++ tagBytes key iv ct).length = 32 := by simp [hiv, hT]
  rcases Nat.lt_or_ge i 16 with hA | hBC
  · -- the flipped byte lands in the IV
    have hin : i < (iv ++ tagBytes key iv ct).length := by omega
    rw [List.set_append_left i bNew hin, List.set_append_left i bNew (by omega)]
    rw [decryptBytes_parts key _ _ _ (by simp [hiv]) hT]
    have hgi : (iv ++ tagBytes key iv ct ++ ct).getD i 0 = iv.getD i 0 := by
      rw [getD_append_left' _ _ _ _ hin, getD_append_left' _ _ _ _ (by omega)]
    rw [hgi] at hne
    have hy : iv.getD i 0 < 256 := getD_lt_of_bound iv i (by omega) hivb
    have hEqA : iv.set i bNew ++ ct = iv.take i ++ bNew :: (iv.drop (i + 1) ++ ct) := by
      rw [set_take_cons_drop iv i bNew (by omega), List.append_assoc, List.cons_append]
    have hEqB : iv ++ ct = iv.take i ++ iv.getD i 0 :: (iv.drop (i + 1) ++ ct) := by
      conv_lhs => rw [← take_getD_drop iv i (by omega)]
      rw [List.append_assoc, List.cons_append]
    rw [if_neg (tagBytes_ne key _ _ _ _ _ _ bNew (iv.getD i 0) hEqA hEqB hbNew hy hne)]
  rcases Nat.lt_or_ge i 32 with hB | hC
  · -- the flipped byte lands in the stored authentication tag
    have hj : i - 16 < (tagBytes key iv ct).length := by omega
    rw [List.set_append_left i bNew (by omega),
      List.set_append_right i bNew (by omega), hiv]
    rw [decryptBytes_parts key _ _ _ hiv (by simp [hT])]
    have hgi : (iv ++ tagBytes key iv ct ++ ct).getD i 0 =
        (tagBytes key iv ct).getD (i - 16) 0 := by
      rw [getD_append_left' _ _ _ _ (by omega),
        getD_append_right' _ _ _ _ (by omega), hiv]
    rw [hgi] at hne
    rw [if_neg]
    intro heq
    have := congrArg (fun l => l.getD (i - 16) 0) heq
    simp only at this
    rw [getD_set_self' _ _ _ _ hj] at this
    exact hne this.symm
  · -- the flipped byte lands in the ciphertext
    have hj : i - 32 < ct.length := by omega
    rw [List.set_append_right i bNew (by omega), h32]
    rw [decryptBytes_parts key _ _ _ hiv hT]
    have hgi : (iv ++ tagBytes key iv ct ++ ct).getD i 0 = ct.getD (i - 32) 0 := by
      rw [getD_append_right' _ _ _ _ (by omega), h32]
    rw [hgi] at hne
    have hy : ct.getD (i - 32) 0 < 256 := getD_lt_of_bound ct (i - 32) hj hctb
    have hEqA : iv ++ ct.set (i - 32) bNew =
        (iv ++ ct.take (i - 32)) ++ bNew :: ct.drop (i - 32 + 1) := by
      rw [set_take_cons_drop ct (i - 32) bNew hj, List.append_assoc]
    have hEqB : iv ++ ct =
        (iv ++ ct.take (i - 32)) ++ ct.getD (i - 32) 0 :: ct.drop (i - 32 + 1) := by
      conv_lhs => rw [← take_getD_drop ct (i - 32) hj]
      rw [List.append_assoc]
    rw [if_neg (tagBytes_ne key iv _ iv ct _ _ bNew (ct.getD (i - 32) 0)
      hEqA hEqB hbNew hy hne)]

/-- C3: for every plaintext and every byte position of the decoded
blob produced by `Config.encrypt`, replacing that byte by any different
byte value makes decryption fail with `DecryptionError` (`none`) —
both when the tampered blob is decrypted directly and when it is
re-encoded and passed through `Config.decrypt`; it never returns a
plaintext. -/
theorem claim_C3_tamper (env : Option (List Nat)) (iv text : List Nat) (i bNew : Nat)
    (hiv : iv.length = 16) (hivb : ∀ b ∈ iv, b < 256) (htb : ∀ b ∈ text, b < 256)
    (hi : i < (b64Decode (Config.encrypt env iv text)).length) (hbNew : bNew < 256)
    (hne : bNew ≠ (b64Decode (Config.encrypt env iv text)).getD i 0) :
    decryptBytes (getEncryptionKey env)
        ((b64Decode (Config.encrypt env iv text)).set i bNew) = none ∧
      Config.decrypt env
        (b64Encode ((b64Decode (Config.encrypt env iv text)).set i bNew)) = none := by
  have hrt : b64Decode (Config.encrypt env iv text) =
      encryptBytes (getEncryptionKey env) iv text := by
    rw [Config.encrypt]
    exact b64_roundtrip _ (encryptBytes_mem_lt _ _ _ hivb htb)
  rw [hrt] at hi hne ⊢
  have hctb : ∀ b ∈ ctrStream (getEncryptionKey env) iv 0 text, b < 256 :=
    ctrStream_mem_lt _ _ 0 text htb
  have hlen : (encryptBytes (getEncryptionKey env) iv text).length =
      32 + (ctrStream (getEncryptionKey env) iv 0 text).length := by
    rw [encryptBytes]
    simp [hiv, tagBytes, toBytesLE_length]
    omega
  have hmain : decryptBytes (getEncryptionKey env)
      ((encryptBytes (getEncryptionKey env) iv text).set i bNew) = none := by
    rw [encryptBytes] at hne ⊢
    exact decryptBytes_tamper_gen (getEncryptionKey env) iv _ i bNew hiv hivb hctb
      (by omega) hbNew hne
  refine ⟨hmain, ?_⟩
  have hset : ∀ b ∈ (encryptBytes (getEncryptionKey env) iv text).set i bNew, b < 256 := by
    intro b hb
    rcases List.mem_or_eq_of_mem_set hb with h | h
    · exact encryptBytes_mem_lt _ _ _ hivb htb b h
    · omega
  rw [Config.decrypt, b64_roundtrip _ hset]
  exact hmain

theorem claim_C3_witness :
    ((List.replicate 16 0 : List Nat).length = 16 ∧
      (∀ b ∈ (List.replicate 16 0 : List Nat), b < 256) ∧
      (∀ b ∈ strCodes "my-api-key", b < 256) ∧
      20 < (b64Decode (Config.encrypt none (List.replicate 16 0) (strCodes "my-api-key"))).length ∧
      (1 : Nat) < 256 ∧
      (1 : Nat) ≠ (b64Decode (Config.encrypt none (List.replicate 16 0) (strCodes "my-api-key"))).getD 20 0) ∧
    Config.decrypt none
      (b64Encode ((b64Decode (Config.encrypt none (List.replicate 16 0) (strCodes "my-api-key"))).set 20 1)) =
      none :=
  ⟨⟨by decide, by decide, by decide, by decide, by decide, by decide⟩,
    (claim_C3_tamper none (List.replicate 16 0) (strCodes "my-api-key") 20 1
      (by decide) (by decide) (by decide) (by decide) (by decide) (by decide)).2⟩
